import Mathlib

set_option linter.unusedVariables false

/-!
Verification of the GCD program in src/CSC-3110/w1/w1/src/main.rs.

The Rust source is:

  fn find_gcd(mut a: u32, mut b: u32) -> u32 {
      while b != 0 {
          let r = a % b;
          a = b;
          b = r;
      }
      a
  }

  fn main() {
      let result = find_gcd(120, 48);
      println!("{result}");
  }

Machine integers u32 are embedded as natural numbers below 2 ^ 32; the
remainder on u32 agrees with Nat remainder, and the Rust remainder panics
on a zero divisor, which is modelled by an Option-valued guarded remainder.
The while loop is embedded twice: as the tail recursion find_gcd, and as
the fuel-indexed loop gcdLoopE whose body uses the guarded remainder and
whose error outcomes (division by zero, fuel exhaustion) are explicit.
-/

/-- Bound of the u32 type: a value of type u32 is a natural number below this. -/
def U32 : Nat := 2 ^ 32

/-- Guarded remainder, modelling the Rust expression a % b on u32: the result
of none models the divide-by-zero panic; otherwise the u32 remainder equals
the Nat remainder. -/
def checkedRem (a b : Nat) : Option Nat :=
  if b = 0 then none else some (a % b)

/-- Shallow embedding of find_gcd from main.rs: the while loop on the mutable
pair (a, b) becomes tail recursion, each iteration replacing (a, b) with
(b, a % b), and the final a is returned when b reaches zero. -/
def find_gcd (a b : Nat) : Nat :=
  if h : b = 0 then a else find_gcd b (a % b)
termination_by b
decreasing_by exact Nat.mod_lt a (Nat.pos_of_ne_zero h)

/-- One iteration of the loop body on the state (a, b):
r = a % b; a = b; b = r. -/
def loopStep (s : Nat × Nat) : Nat × Nat :=
  (s.2, s.1 % s.2)

/-- Possible outcomes of running the loop with bounded fuel. -/
inductive LoopResult where
  | ok (v : Nat)
  | divByZero
  | outOfFuel
deriving DecidableEq, Repr

/-- Fuel-indexed embedding of the while loop of find_gcd, with the loop body
using the guarded remainder checkedRem: divByZero records a reachable
divide-by-zero panic, outOfFuel records that the given number of iterations
did not suffice. -/
def gcdLoopE (fuel a b : Nat) : LoopResult :=
  match fuel with
  | 0 => .outOfFuel
  | fuel + 1 =>
    if b = 0 then .ok a
    else
      match checkedRem a b with
      | none => .divByZero
      | some r => gcdLoopE fuel b r

/-- Shallow embedding of main: the value computed by find_gcd(120, 48). -/
def main_result : Nat := find_gcd 120 48

/-- Shallow embedding of main: the full standard output, the decimal rendering
of the result followed by a newline, as written by the println call. -/
def main_output : String := toString main_result ++ "\n"

/-- Shallow embedding of main: the process exit code on normal completion. -/
def main_exit_code : Nat := 0

/-- The property of being the greatest common divisor: g divides both a and b,
and every common divisor of a and b is at most g. -/
def isGCD (g a b : Nat) : Prop :=
  g ∣ a ∧ g ∣ b ∧ ∀ c : Nat, c ∣ a → c ∣ b → c ≤ g

/-- Reference recursive Euclidean definition, following the words of the spec:
replace (a, b) with (b, a mod b) until the second component is zero, then
return the first component. -/
def euclid_spec (a b : Nat) : Nat :=
  if h : b = 0 then a else euclid_spec b (a % b)
termination_by b
decreasing_by exact Nat.mod_lt a (Nat.pos_of_ne_zero h)

/-- The implemented function agrees with the library gcd on Nat. -/
theorem find_gcd_eq_gcd (a b : Nat) : find_gcd a b = Nat.gcd a b := by
  induction b using Nat.strong_induction_on generalizing a with
  | _ b ih =>
    rw [find_gcd]
    split
    · rename_i h
      subst h
      exact (Nat.gcd_zero_right a).symm
    · rename_i h
      rw [ih (a % b) (Nat.mod_lt a (Nat.pos_of_ne_zero h)) b]
      rw [Nat.gcd_comm b (a % b), ← Nat.gcd_rec b a, Nat.gcd_comm b a]

/-- The reference definition also agrees with the library gcd on Nat. -/
theorem euclid_spec_eq_gcd (a b : Nat) : euclid_spec a b = Nat.gcd a b := by
  induction b using Nat.strong_induction_on generalizing a with
  | _ b ih =>
    rw [euclid_spec]
    split
    · rename_i h
      subst h
      exact (Nat.gcd_zero_right a).symm
    · rename_i h
      rw [ih (a % b) (Nat.mod_lt a (Nat.pos_of_ne_zero h)) b]
      rw [Nat.gcd_comm b (a % b), ← Nat.gcd_rec b a, Nat.gcd_comm b a]

/-- With fuel exceeding the initial second component, the fuel-indexed loop
returns the same value as find_gcd. -/
theorem gcdLoopE_ok_of_lt (fuel a b : Nat) (h : b < fuel) :
    gcdLoopE fuel a b = LoopResult.ok (find_gcd a b) := by
  induction fuel generalizing a b with
  | zero => exact absurd h (Nat.not_lt_zero b)
  | succ n ih =>
    rw [find_gcd]
    by_cases hb : b = 0
    · simp [gcdLoopE, hb]
    · have hr : a % b < b := Nat.mod_lt a (Nat.pos_of_ne_zero hb)
      have hm : a % b < n := by omega
      simp [gcdLoopE, checkedRem, hb, ih b (a % b) hm]

/-- The second component of the loop state strictly decreases across every
iteration whose guard holds. -/
def loopStepDecreases : Prop :=
  ∀ s : Nat × Nat, s.2 ≠ 0 → (loopStep s).2 < s.2

/-- C1: for u32 inputs a and b not both zero, find_gcd a b divides both a
and b, and every common divisor of a and b is at most find_gcd a b, so the
returned value is the greatest common divisor of the inputs. -/
theorem find_gcd_is_greatest_common_divisor (a b : Nat)
    (ha : a < U32) (hb : b < U32) (hab : ¬(a = 0 ∧ b = 0)) :
    isGCD (find_gcd a b) a b := by
  unfold isGCD
  rw [find_gcd_eq_gcd]
  refine ⟨Nat.gcd_dvd_left a b, Nat.gcd_dvd_right a b, ?_⟩
  intro c hca hcb
  have hpos : 0 < Nat.gcd a b := by
    rcases Nat.eq_zero_or_pos (Nat.gcd a b) with h0 | hp
    · rw [Nat.gcd_eq_zero_iff] at h0
      exact absurd h0 hab
    · exact hp
  exact Nat.le_of_dvd hpos (Nat.dvd_gcd hca hcb)

theorem find_gcd_is_greatest_common_divisor_witness :
    (120 : Nat) < U32 ∧ (48 : Nat) < U32 ∧ ¬((120 : Nat) = 0 ∧ (48 : Nat) = 0) ∧
    isGCD (find_gcd 120 48) 120 48 :=
  ⟨by decide, by decide, by decide,
    find_gcd_is_greatest_common_divisor 120 48 (by decide) (by decide) (by decide)⟩

/-- C2: main computes find_gcd 120 48, which equals 24, writes exactly the
decimal string 24 followed by a newline to standard output, and terminates
with exit code 0. -/
theorem main_prints_24_and_exits_zero :
    main_result = 24 ∧ main_output = "24\n" ∧ main_exit_code = 0 := by
  have h : main_result = 24 := by
    unfold main_result
    rw [find_gcd_eq_gcd]
    norm_num
  refine ⟨h, ?_, rfl⟩
  unfold main_output
  rw [h]
  decide

/-- C3: for every u32 input pair, the while loop of find_gcd terminates: the
second component strictly decreases on each iteration and is bounded below by
zero, so fuel b + 1 suffices and the loop returns the find_gcd value, making
find_gcd total on u32 pairs. -/
theorem find_gcd_loop_terminates (a b : Nat) (ha : a < U32) (hb : b < U32) :
    loopStepDecreases ∧ gcdLoopE (b + 1) a b = LoopResult.ok (find_gcd a b) := by
  constructor
  · intro s hs
    exact Nat.mod_lt s.1 (Nat.pos_of_ne_zero hs)
  · exact gcdLoopE_ok_of_lt (b + 1) a b (Nat.lt_succ_self b)

theorem find_gcd_loop_terminates_witness :
    (120 : Nat) < U32 ∧ (48 : Nat) < U32 ∧
    (loopStepDecreases ∧ gcdLoopE 49 120 48 = LoopResult.ok (find_gcd 120 48)) :=
  ⟨by decide, by decide, find_gcd_loop_terminates 120 48 (by decide) (by decide)⟩

/-- C4: for every u32 input pair and any fuel, the loop never reaches the
divide-by-zero outcome: the guarded remainder is only evaluated under the
loop condition b different from 0, so its error branch is unreachable. -/
theorem find_gcd_no_div_by_zero (fuel a b : Nat) (ha : a < U32) (hb : b < U32) :
    gcdLoopE fuel a b ≠ LoopResult.divByZero := by
  induction fuel generalizing a b with
  | zero => simp [gcdLoopE]
  | succ n ih =>
    by_cases h : b = 0
    · simp [gcdLoopE, h]
    · have hr : a % b < b := Nat.mod_lt a (Nat.pos_of_ne_zero h)
      simp only [gcdLoopE, checkedRem, h, if_false, if_neg h]
      exact ih b (a % b) hb (lt_trans hr hb)

theorem find_gcd_no_div_by_zero_witness :
    (120 : Nat) < U32 ∧ (48 : Nat) < U32 ∧
    gcdLoopE 49 120 48 ≠ LoopResult.divByZero :=
  ⟨by decide, by decide, find_gcd_no_div_by_zero 49 120 48 (by decide) (by decide)⟩

/-- C5: for every u32 value a, find_gcd a 0 = a and find_gcd 0 a = a, and in
particular find_gcd 0 0 = 0. -/
theorem find_gcd_zero_cases (a : Nat) (ha : a < U32) :
    find_gcd a 0 = a ∧ find_gcd 0 a = a ∧ find_gcd 0 0 = 0 := by
  refine ⟨?_, ?_, ?_⟩
  · rw [find_gcd_eq_gcd]
    exact Nat.gcd_zero_right a
  · rw [find_gcd_eq_gcd]
    exact Nat.gcd_zero_left a
  · rw [find_gcd_eq_gcd]
    exact Nat.gcd_self 0

theorem find_gcd_zero_cases_witness :
    (5 : Nat) < U32 ∧ (find_gcd 5 0 = 5 ∧ find_gcd 0 5 = 5 ∧ find_gcd 0 0 = 0) :=
  ⟨by decide, find_gcd_zero_cases 5 (by decide)⟩

/-- C6: for all u32 values a and b, find_gcd a b = find_gcd b a, the
implemented GCD is commutative. -/
theorem find_gcd_comm (a b : Nat) (ha : a < U32) (hb : b < U32) :
    find_gcd a b = find_gcd b a := by
  rw [find_gcd_eq_gcd, find_gcd_eq_gcd]
  exact Nat.gcd_comm a b

theorem find_gcd_comm_witness :
    (120 : Nat) < U32 ∧ (48 : Nat) < U32 ∧ find_gcd 120 48 = find_gcd 48 120 :=
  ⟨by decide, by decide, find_gcd_comm 120 48 (by decide) (by decide)⟩

/-- C7: for u32 values a, b, k such that the products k * a and k * b stay
below 2 ^ 32, find_gcd (k * a) (k * b) = k * find_gcd a b, the scaling law. -/
theorem find_gcd_scaling (a b k : Nat) (ha : a < U32) (hb : b < U32)
    (hk : k < U32) (hka : k * a < U32) (hkb : k * b < U32) :
    find_gcd (k * a) (k * b) = k * find_gcd a b := by
  rw [find_gcd_eq_gcd, find_gcd_eq_gcd]
  exact Nat.gcd_mul_left k a b

theorem find_gcd_scaling_witness :
    (60 : Nat) < U32 ∧ (24 : Nat) < U32 ∧ (2 : Nat) < U32 ∧
    2 * 60 < U32 ∧ 2 * 24 < U32 ∧
    find_gcd (2 * 60) (2 * 24) = 2 * find_gcd 60 24 :=
  ⟨by decide, by decide, by decide, by decide, by decide,
    find_gcd_scaling 60 24 2 (by decide) (by decide) (by decide) (by decide) (by decide)⟩

/-- C8: for every u32 input pair with a nonzero second component, the only
arithmetic performed, the remainder, succeeds, and its result is at most the
smaller operand, hence below 2 ^ 32; the final result is also below 2 ^ 32,
so no arithmetic in find_gcd overflows or wraps. -/
theorem find_gcd_no_overflow (a b : Nat) (ha : a < U32) (hb : b < U32)
    (hbne : b ≠ 0) :
    checkedRem a b = some (a % b) ∧ a % b ≤ min a b ∧ a % b < U32 ∧
    find_gcd a b < U32 := by
  have hr : a % b < b := Nat.mod_lt a (Nat.pos_of_ne_zero hbne)
  refine ⟨?_, ?_, ?_, ?_⟩
  · unfold checkedRem
    rw [if_neg hbne]
  · exact le_min (Nat.mod_le a b) (le_of_lt hr)
  · exact lt_trans hr hb
  · rw [find_gcd_eq_gcd]
    calc Nat.gcd a b ≤ b := Nat.gcd_le_right b (Nat.pos_of_ne_zero hbne)
    _ < U32 := hb

theorem find_gcd_no_overflow_witness :
    (120 : Nat) < U32 ∧ (48 : Nat) < U32 ∧ (48 : Nat) ≠ 0 ∧
    (checkedRem 120 48 = some (120 % 48) ∧ 120 % 48 ≤ min 120 48 ∧
      120 % 48 < U32 ∧ find_gcd 120 48 < U32) :=
  ⟨by decide, by decide, by decide,
    find_gcd_no_overflow 120 48 (by decide) (by decide) (by decide)⟩

/-- C9: on every u32 input pair, the iterative find_gcd equals the reference
recursive Euclidean definition written from the spec, and both equal the
library gcd on natural numbers. -/
theorem find_gcd_refines_euclid (a b : Nat) (ha : a < U32) (hb : b < U32) :
    find_gcd a b = euclid_spec a b ∧ find_gcd a b = Nat.gcd a b := by
  rw [find_gcd_eq_gcd, euclid_spec_eq_gcd]
  exact ⟨rfl, rfl⟩

theorem find_gcd_refines_euclid_witness :
    (120 : Nat) < U32 ∧ (48 : Nat) < U32 ∧
    (find_gcd 120 48 = euclid_spec 120 48 ∧ find_gcd 120 48 = Nat.gcd 120 48) :=
  ⟨by decide, by decide, find_gcd_refines_euclid 120 48 (by decide) (by decide)⟩

/-- C10: for every u32 value a, including zero, find_gcd a a = a. -/
theorem find_gcd_self_idem (a : Nat) (ha : a < U32) : find_gcd a a = a := by
  rw [find_gcd_eq_gcd]
  exact Nat.gcd_self a

theorem find_gcd_self_idem_witness :
    (7 : Nat) < U32 ∧ find_gcd 7 7 = 7 :=
  ⟨by decide, find_gcd_self_idem 7 (by decide)⟩
